import Mathlib

/-
Shallow embedding of `src/paircorrelation2d.py` (function `pcf2d`).

Modelling conventions:
* Real-valued quantities are modelled by exact rationals `ℚ`; we do not model
  IEEE rounding. The one place where a non-finite float value is semantically
  important (the final divisions `g_of_r/nb_part` and
  `g_of_r_normalized/(nb_part*densite)`, which numpy turns into NaN when the
  retained point count is zero) is modelled by `safeDiv`, which returns `none`
  for a zero divisor (standing for numpy's non-finite NaN/inf result) and
  `some (a / b)` otherwise.
* `np.inf` (the sentinel stored into the self-distance, line 206) is modelled
  as `⊤ : WithTop ℚ`; all binned distance values live in `WithTop ℚ`.
* The external geometry and numeric primitives (supplied by the shapely and
  numpy libraries, not by this repository) are collected in an oracle
  structure `Env`: polygon validity (`Polygon(...).is_valid`), point-in-domain
  membership (the effect of `area_of_interest.intersection(MultiPoint(...))`),
  the domain area, the point-to-boundary distance
  (`point.distance(border_area)`), the area of the intersection of the domain
  with ring `j` translated to a point
  (`area_of_interest.intersection(translate(rings[jj],...)).area`), the
  polygon-approximated ring area (`rings[jj].area`), and `np.sqrt`.
* `np.pi` is the float64 constant nearest to π; `npPi` is that exact rational.
-/

namespace PairCorrelation2D

/-- A planar point, the type of one row of `array_positions`. -/
abbrev Pt : Type := ℚ × ℚ

/-- Oracle for the geometry/numeric primitives supplied by shapely and numpy
(external libraries, outside this repository's source). One `Env` value
describes one fixed `area_of_interest` together with the translated-ring
intersection areas and the approximate ring areas for one fixed bin array. -/
structure Env where
  /-- `area_of_interest.is_valid` (only consulted when a border is given). -/
  isValid : Bool
  /-- membership of a point in the closed area of interest; describes which
  points survive `area_of_interest.intersection(MultiPoint(array_positions))`. -/
  contains : Pt → Bool
  /-- `area_of_interest.area` -/
  area : ℚ
  /-- `positions_of_interest.geoms[ii].distance(border_area)` as a function of
  the point's coordinates. -/
  distToBorder : Pt → ℚ
  /-- `area_of_interest.intersection(translate(rings[j], xoff=px, yoff=py)).area`
  as a function of the point and the ring index `j`. -/
  interArea : Pt → ℕ → ℚ
  /-- `rings[j].area`, the polygon-approximated ring area (`ring_area_approx`). -/
  ringAreaApprox : ℕ → ℚ
  /-- `np.sqrt`, the external square-root routine used in the distance
  computation of line 205. -/
  sqrt : ℚ → ℚ

/-- The float64 value of `np.pi`: the IEEE double nearest to π, as an exact
rational (`7074237752028440 * 2^-51`). -/
def npPi : ℚ := 884279719003555 / 281474976710656

/-- Division as numpy performs it on the final arrays: a zero divisor yields a
non-finite float (NaN here, since the numerators are then also zero), modelled
as `none`; otherwise the exact quotient. -/
def safeDiv (a b : ℚ) : Option ℚ := if b = 0 then none else some (a / b)

/-- `l[-1]` for a list of rationals (`bins_distances[-1]`). -/
def lastD (l : List ℚ) : ℚ := l.getD (l.length - 1) 0

/-- `ring_area[j] = np.pi*(bins_distances[j+1]**2 - bins_distances[j]**2)`
(line 156), the analytically exact ring area. -/
def ringArea (bins : List ℚ) (j : ℕ) : ℚ :=
  npPi * ((bins.getD (j + 1) 0) ^ 2 - (bins.getD j 0) ^ 2)

/-- Membership of a value in histogram bin `j` for the edge array `bins`,
following `np.histogram` semantics: bin `j` is `[bins[j], bins[j+1])`, except
the last bin which is closed, `[bins[M-2], bins[M-1]]`. The value lives in
`WithTop ℚ` so that the `np.inf` sentinel (`⊤`) falls in no bin. -/
def inBin (bins : List ℚ) (j : ℕ) (v : WithTop ℚ) : Bool :=
  if j + 2 = bins.length then
    decide (((bins.getD j 0 : ℚ) : WithTop ℚ) ≤ v) &&
      decide (v ≤ ((bins.getD (j + 1) 0 : ℚ) : WithTop ℚ))
  else
    decide (((bins.getD j 0 : ℚ) : WithTop ℚ) ≤ v) &&
      decide (v < ((bins.getD (j + 1) 0 : ℚ) : WithTop ℚ))

/-- The count `np.histogram(vs, bins=bins_distances)[0][j]`. -/
def binCount (bins : List ℚ) (j : ℕ) (vs : List (WithTop ℚ)) : ℕ :=
  (vs.filter (inBin bins j)).length

/-- Lines 205-206: `dist_to_loc`, the vector of Euclidean distances from point
`i` to every retained point, with the self-distance overwritten by `np.inf`
(modelled as `⊤`). -/
def distToLoc (env : Env) (pts : List Pt) (i : ℕ) : List (WithTop ℚ) :=
  (pts.map fun q =>
      ((env.sqrt ((q.1 - (pts.getD i (0, 0)).1) ^ 2
        + (q.2 - (pts.getD i (0, 0)).2) ^ 2) : ℚ) : WithTop ℚ)).set i ⊤

/-- Entry `(i, j)` of the `normalisation` matrix after the accurate-mode loop
of lines 185-193 has run over the matrix initialised to ones (line 167).

* If `dist_to_border[i] <= bins_distances[0]` (line 188), every column `j` is
  written with `intersection_area / ring_area_approx[j]` (line 190).
* Otherwise the loop of line 192 runs over
  `np.where(bins_distances > dist_to_border[i])[0] - 1`, i.e. over the column
  indices `j` such that some edge index `k = j+1 < len(bins_distances)` has
  `bins_distances[k] > dist_to_border[i]`. (The edge index `k = 0` can never
  occur in this branch, since there `dist_to_border[i] > bins_distances[0]`,
  so the `-1` shift never produces the Python index `-1`.)
* All other entries keep their initial value `1`. -/
def normEntry (env : Env) (bins : List ℚ) (pts : List Pt) (i j : ℕ) : ℚ :=
  let p := pts.getD i (0, 0)
  let d := env.distToBorder p
  if d ≤ bins.getD 0 0 then
    env.interArea p j / env.ringAreaApprox j
  else if j + 1 < bins.length ∧ d < bins.getD (j + 1) 0 then
    env.interArea p j / env.ringAreaApprox j
  else 1

/-- The raw histogram accumulated over the loop of lines 200-208:
`g_of_r[j] = Σ_i np.histogram(dist_to_loc_i, bins)[0][j]` before the final
division of line 215. -/
def rawHist (env : Env) (bins : List ℚ) (pts : List Pt) (j : ℕ) : ℕ :=
  ((List.range pts.length).map fun i => binCount bins j (distToLoc env pts i)).sum

/-- The normalized histogram accumulated at line 209:
`Σ_i hist_i[j] / (ring_area[j] * normalisation[i, j])` before the final
division of line 216. -/
def normHist (env : Env) (bins : List ℚ) (pts : List Pt)
    (norm : ℕ → ℕ → ℚ) (j : ℕ) : ℚ :=
  ((List.range pts.length).map fun i =>
    (binCount bins j (distToLoc env pts i) : ℚ) / (ringArea bins j * norm i j)).sum

/-- Line 218: `radii = (bins_distances[1::] + bins_distances[0:-1])/2`. -/
def radiiOf (bins : List ℚ) : List ℚ :=
  List.zipWith (fun a b => (a + b) / 2) bins.tail bins

/-- Line 175-176: the points kept by the fast method, those with
`dist_to_border > bins_distances[-1]`. -/
def retainedFast (env : Env) (pts : List Pt) (bins : List ℚ) : List Pt :=
  pts.filter fun p => lastD bins < env.distToBorder p

/-- The points inside the area of interest: when a border is given, the result
of intersecting the point set with the polygon (lines 128-133); otherwise all
input points (line 116, the convex-hull branch keeps every point). -/
def keptPoints (env : Env) (pts : List Pt) (borderGiven : Bool) : List Pt :=
  if borderGiven then pts.filter env.contains else pts

/-- The outcome of a `pcf2d` call.

* `validationFailure`: the border polygon was invalid; the function prints a
  message and returns `None` (lines 124-126).
* `pointGeomsFailure`: exactly one input point lies inside the supplied
  border, so `area_of_interest.intersection(MultiPoint(...))` is a shapely
  `Point`, which has no `.geoms` attribute, and line 131 raises
  `AttributeError` before any result is produced.
* `ok`: a normal return carrying every artifact of the `full_output=True`
  result tuple of line 234 (the default output is the `(g_of_r_normalized,
  radii)` projection). The normalisation matrix is modelled as a total
  function of the index pair; only indices `i < positions.length`,
  `j < bins.length - 1` correspond to entries of the numpy matrix. -/
inductive PcfResult where
  | validationFailure
  | pointGeomsFailure
  | ok (gOfR : List (Option ℚ)) (radii : List ℚ) (pdf : List (Option ℚ))
      (positions : List Pt) (distBorder : List ℚ)
      (normalisation : ℕ → ℕ → ℚ) (densite : ℚ)

/-- The common body of `pcf2d` after the domain filtering: `pts0` is the list
of points inside the area of interest.  Mirrors lines 139-218:
`densite` (line 140) is computed from the count *before* the fast-method
exclusion; the fast method then replaces the point list by `retainedFast`
(lines 175-177) and its normalisation matrix is everywhere one (lines 167 and
181); the accurate method keeps all points and fills the matrix per
`normEntry` (lines 185-193).  The final arrays follow lines 208-218 with the
post-exclusion count `n` as divisor. -/
def pcf2dBody (env : Env) (pts0 : List Pt) (bins : List ℚ)
    (fastMethod : Bool) : PcfResult :=
  let densite := (pts0.length : ℚ) / env.area
  let pts := if fastMethod then retainedFast env pts0 bins else pts0
  let n := pts.length
  let norm : ℕ → ℕ → ℚ :=
    if fastMethod then fun _ _ => 1 else normEntry env bins pts0
  let g := (List.range (bins.length - 1)).map fun j =>
    safeDiv (normHist env bins pts norm j) ((n : ℚ) * densite)
  let pdf := (List.range (bins.length - 1)).map fun j =>
    safeDiv (rawHist env bins pts j : ℚ) (n : ℚ)
  PcfResult.ok g (radiiOf bins) pdf pts (pts.map env.distToBorder) norm densite

/-- The entry point `pcf2d` (line 14).  `borderGiven` tells whether
`coord_border` was supplied.  With a border: an invalid polygon aborts with a
validation failure (lines 124-126); when exactly one point lies inside, the
shapely intersection is a single `Point` and the `.geoms` access of line 131
raises `AttributeError` (`pointGeomsFailure`); otherwise the in-domain points
are extracted and the computation proceeds.  Without a border the domain is
the convex hull of the points and all of them are kept (lines 115-117); `env`
then describes the hull geometry. -/
def pcf2d (env : Env) (pts : List Pt) (bins : List ℚ)
    (borderGiven fastMethod : Bool) : PcfResult :=
  if borderGiven then
    if env.isValid then
      if (pts.filter env.contains).length = 1 then PcfResult.pointGeomsFailure
      else pcf2dBody env (pts.filter env.contains) bins fastMethod
    else PcfResult.validationFailure
  else pcf2dBody env pts bins fastMethod

/-- The `g_of_r_normalized` component of a result (empty on failure). -/
def PcfResult.gOut : PcfResult → List (Option ℚ)
  | .ok g _ _ _ _ _ _ => g
  | _ => []

/-- The `radii` component of a result (empty on failure). -/
def PcfResult.radiiOut : PcfResult → List ℚ
  | .ok _ r _ _ _ _ _ => r
  | _ => []

/-- The raw `PDF(r)` component of a result (empty on failure). -/
def PcfResult.pdfOut : PcfResult → List (Option ℚ)
  | .ok _ _ p _ _ _ _ => p
  | _ => []

/-- The retained-point array of a result (empty on failure). -/
def PcfResult.positionsOut : PcfResult → List Pt
  | .ok _ _ _ ps _ _ _ => ps
  | _ => []

/-- The boundary-distance array of a result (empty on failure). -/
def PcfResult.distOut : PcfResult → List ℚ
  | .ok _ _ _ _ d _ _ => d
  | _ => []

/-- The normalisation matrix of a result (all ones on failure). -/
def PcfResult.normOut : PcfResult → (ℕ → ℕ → ℚ)
  | .ok _ _ _ _ _ m _ => m
  | _ => fun _ _ => 1

/-- The estimated density of a result (zero on failure). -/
def PcfResult.densiteOut : PcfResult → ℚ
  | .ok _ _ _ _ _ _ d => d
  | _ => 0

/-- Whether the call returned normally. -/
def PcfResult.isOk : PcfResult → Bool
  | .ok _ _ _ _ _ _ _ => true
  | _ => false

/-! Helper lemmas about the pipeline and about lists. -/

lemma pcf2d_noBorder (env : Env) (pts : List Pt) (bins : List ℚ) (fast : Bool) :
    pcf2d env pts bins false fast = pcf2dBody env pts bins fast := rfl

lemma pcf2d_cases (env : Env) (pts : List Pt) (bins : List ℚ)
    (bg fast : Bool) :
    pcf2d env pts bins bg fast = pcf2dBody env (keptPoints env pts bg) bins fast
      ∨ pcf2d env pts bins bg fast = PcfResult.validationFailure
      ∨ pcf2d env pts bins bg fast = PcfResult.pointGeomsFailure := by
  cases bg with
  | false => exact Or.inl rfl
  | true =>
    by_cases hv : env.isValid
    · by_cases h1 : (pts.filter env.contains).length = 1
      · exact Or.inr (Or.inr (by simp [pcf2d, hv, h1]))
      · exact Or.inl (by simp [pcf2d, hv, h1, keptPoints])
    · exact Or.inr (Or.inl (by simp [pcf2d, hv]))

lemma pcf2dBody_positionsOut (env : Env) (pts0 : List Pt) (bins : List ℚ)
    (fast : Bool) :
    (pcf2dBody env pts0 bins fast).positionsOut
      = if fast then retainedFast env pts0 bins else pts0 := rfl

lemma pcf2dBody_normOut (env : Env) (pts0 : List Pt) (bins : List ℚ)
    (fast : Bool) :
    (pcf2dBody env pts0 bins fast).normOut
      = if fast then (fun _ _ => 1) else normEntry env bins pts0 := rfl

lemma pcf2dBody_densiteOut (env : Env) (pts0 : List Pt) (bins : List ℚ)
    (fast : Bool) :
    (pcf2dBody env pts0 bins fast).densiteOut
      = (pts0.length : ℚ) / env.area := rfl

lemma pcf2dBody_distOut (env : Env) (pts0 : List Pt) (bins : List ℚ)
    (fast : Bool) :
    (pcf2dBody env pts0 bins fast).distOut
      = (if fast then retainedFast env pts0 bins else pts0).map env.distToBorder := rfl

lemma pcf2dBody_radiiOut (env : Env) (pts0 : List Pt) (bins : List ℚ)
    (fast : Bool) :
    (pcf2dBody env pts0 bins fast).radiiOut = radiiOf bins := rfl

lemma pcf2dBody_gOut (env : Env) (pts0 : List Pt) (bins : List ℚ) (fast : Bool) :
    (pcf2dBody env pts0 bins fast).gOut
      = (List.range (bins.length - 1)).map (fun j =>
          safeDiv
            (normHist env bins (if fast then retainedFast env pts0 bins else pts0)
              (if fast then (fun _ _ => 1) else normEntry env bins pts0) j)
            (((if fast then retainedFast env pts0 bins else pts0).length : ℚ)
              * ((pts0.length : ℚ) / env.area))) := rfl

lemma pcf2dBody_pdfOut (env : Env) (pts0 : List Pt) (bins : List ℚ) (fast : Bool) :
    (pcf2dBody env pts0 bins fast).pdfOut
      = (List.range (bins.length - 1)).map (fun j =>
          safeDiv
            ((rawHist env bins (if fast then retainedFast env pts0 bins else pts0) j : ℚ))
            (((if fast then retainedFast env pts0 bins else pts0).length : ℚ))) := rfl

lemma pcf2dBody_isOk (env : Env) (pts0 : List Pt) (bins : List ℚ) (fast : Bool) :
    (pcf2dBody env pts0 bins fast).isOk = true := rfl

lemma pcf2d_eq_body_of_isOk {env : Env} {pts : List Pt} {bins : List ℚ}
    {bg fast : Bool} (h : (pcf2d env pts bins bg fast).isOk = true) :
    pcf2d env pts bins bg fast = pcf2dBody env (keptPoints env pts bg) bins fast := by
  rcases pcf2d_cases env pts bins bg fast with hc | hc | hc
  · exact hc
  · rw [hc] at h; exact absurd h (by simp [PcfResult.isOk])
  · rw [hc] at h; exact absurd h (by simp [PcfResult.isOk])

lemma getD_map_of_lt {f : Pt → ℚ} {l : List Pt} {i : ℕ} (h : i < l.length) :
    (l.map f).getD i 0 = f (l.getD i (0, 0)) := by
  rw [List.getD_eq_getElem _ _ (by simpa using h), List.getD_eq_getElem _ _ h,
    List.getElem_map]

lemma getD_lt_getD_of_pairwise {l : List ℚ} (hl : l.Pairwise (· < ·))
    {a b : ℕ} (hab : a < b) (hb : b < l.length) :
    l.getD a 0 < l.getD b 0 := by
  rw [List.getD_eq_getElem _ _ (lt_trans hab hb), List.getD_eq_getElem _ _ hb]
  exact List.pairwise_iff_get.mp hl ⟨a, lt_trans hab hb⟩ ⟨b, hb⟩ hab

lemma getD_le_getD_of_pairwise {l : List ℚ} (hl : l.Pairwise (· < ·))
    {a b : ℕ} (hab : a ≤ b) (hb : b < l.length) :
    l.getD a 0 ≤ l.getD b 0 := by
  rcases lt_or_eq_of_le hab with h | h
  · exact le_of_lt (getD_lt_getD_of_pairwise hl h hb)
  · rw [h]

lemma getD_mem_of_lt {l : List Pt} {i : ℕ} (h : i < l.length) :
    l.getD i (0, 0) ∈ l := by
  rw [List.getD_eq_getElem _ _ h]
  exact List.getElem_mem h

lemma inBin_top (bins : List ℚ) (j : ℕ) : inBin bins j ⊤ = false := by
  unfold inBin
  split
  · simp [top_le_iff]
  · simp [not_top_lt]

lemma getD_set_self {l : List (WithTop ℚ)} {i : ℕ} (h : i < l.length)
    (a : WithTop ℚ) : (l.set i a).getD i 0 = a := by
  rw [List.getD_eq_getElem _ _ (by simpa using h)]
  simp [List.getElem_set]

lemma length_filter_set_eraseIdx {α : Type} (p : α → Bool) (a : α)
    (hpa : p a = false) :
    ∀ (l : List α) (i : ℕ), i < l.length →
      ((l.set i a).filter p).length = ((l.eraseIdx i).filter p).length := by
  intro l
  induction l with
  | nil => intro i hi; simp at hi
  | cons x xs ih =>
    intro i hi
    cases i with
    | zero => simp [hpa]
    | succ n =>
      have hn : n < xs.length := by simpa using hi
      simp only [List.set_cons_succ, List.eraseIdx_cons_succ, List.filter_cons]
      cases hx : p x
      · simp [hx, ih n hn]
      · simp [hx, ih n hn]

/-! Concrete oracle instances used in witnesses and counterexamples.  Each one
is consistent with an actual geometry; fields that the statements below never
consult are given placeholder values. -/

/-- A 20x20 square border `[[0,0],[0,20],[20,20],[20,0]]` with the two points
`(5,10)` and `(8,14)` inside: the boundary distances are exactly 5 and 6, the
area is 400, and the two points are at Euclidean distance
`sqrt((8-5)^2+(14-10)^2) = sqrt(25) = 5` exactly (`np.sqrt(25.0) = 5.0`).
`interArea`/`ringAreaApprox` are placeholders (no normalization entry is
computed for these points with the bin edges used below). -/
def envSq : Env where
  isValid := true
  contains := fun _ => true
  area := 400
  distToBorder := fun p => if p = (5, 10) then 5 else 6
  interArea := fun _ _ => 1
  ringAreaApprox := fun _ => 78
  sqrt := fun q => if q = 25 then 5 else 0

/-- The two in-square points of `envSq`. -/
def ptsSq : List Pt := [(5, 10), (8, 14)]

/-- Bin edges `[0, 5]` (one bin). -/
def binsSq : List ℚ := [(0 : ℚ), 5]

/-- Bin edges `[0, 4]` (one bin, largest edge below both boundary distances of
`envSq`). -/
def binsSq4 : List ℚ := [(0 : ℚ), 4]

/-- No border given: the domain is the convex hull of the four points
`(1,1),(0,0),(8,0),(0,8)`, the triangle with vertices `(0,0),(8,0),(0,8)`
(area 32).  The interior point `(1,1)` is at distance exactly 1 from the two
legs of the triangle; the three vertices lie on the hull boundary (distance
0).  `interArea`/`ringAreaApprox`/`sqrt` are placeholders, not consulted by
the statements below. -/
def envHull : Env where
  isValid := true
  contains := fun _ => true
  area := 32
  distToBorder := fun p => if p = (1, 1) then 1 else 0
  interArea := fun _ _ => 1
  ringAreaApprox := fun _ => 2
  sqrt := fun _ => 0

/-- The point list of the `envHull` scenario. -/
def ptsHull : List Pt := [(1, 1), (0, 0), (8, 0), (0, 8)]

/-- Bin edges `[1/2, 1]`: the interior point's boundary distance equals the
outer edge of the single bin exactly. -/
def binsHull : List ℚ := [(1 : ℚ) / 2, 1]

/-- The same 20x20 square border, but with the single input point `(30,30)`
lying outside it: the polygon/point-set intersection is empty. -/
def envOut : Env where
  isValid := true
  contains := fun _ => false
  area := 400
  distToBorder := fun _ => 0
  interArea := fun _ _ => 1
  ringAreaApprox := fun _ => 78
  sqrt := fun _ => 0

/-- A bow-tie border `[[0,0],[0,1],[1,0],[1,1]]`: shapely reports
`Polygon(...).is_valid == False`. All other fields are irrelevant. -/
def envBowtie : Env where
  isValid := false
  contains := fun _ => true
  area := 0
  distToBorder := fun _ => 0
  interArea := fun _ _ => 0
  ringAreaApprox := fun _ => 0
  sqrt := fun _ => 0

/-- The unit square border `[[0,0],[0,1],[1,1],[1,0]]` with points
`(0.3,0.3)` and `(0.6,0.6)` inside (boundary distances 0.3 and 0.4). -/
def envUnit : Env where
  isValid := true
  contains := fun _ => true
  area := 1
  distToBorder := fun p => if p = (3 / 10, 3 / 10) then 3 / 10 else 2 / 5
  interArea := fun _ _ => 1
  ringAreaApprox := fun _ => 1
  sqrt := fun _ => 0

/-- The point list of the `envUnit` scenario. -/
def ptsUnit : List Pt := [(3 / 10, 3 / 10), (3 / 5, 3 / 5)]

/-- A single bin edge: `bins_distances = [1.0]`, a too-short edge sequence
(length 1 < 2, defining no bin at all). -/
def binsOne : List ℚ := [(1 : ℚ)]

/-- The unit square border `[[0,0],[0,1],[1,1],[1,0]]` with the two interior
points `(1/2,1/2)` and `(1/2,1/4)` (boundary distances 1/2 and 1/4) and bin
edges far larger than the domain: every point of the square is within
distance `sqrt(2)/2 < 2` of either point, so the annulus of radii 2..3
translated to either point misses the square entirely and every
domain/ring intersection area is exactly 0.  `rings[0].area ~ pi*(9-4)`,
taken as 15. -/
def envCtr : Env where
  isValid := true
  contains := fun _ => true
  area := 1
  distToBorder := fun p => if p = (1 / 2, 1 / 2) then 1 / 2 else 1 / 4
  interArea := fun _ _ => 0
  ringAreaApprox := fun _ => 15
  sqrt := fun _ => 0

/-- The point list of the `envCtr` scenario. -/
def ptsCtr : List Pt := [(1 / 2, 1 / 2), (1 / 2, 1 / 4)]

/-- Bin edges `[2, 3]`: one bin whose ring cannot touch the unit square. -/
def binsCtr : List ℚ := [(2 : ℚ), 3]

/-! The claims. -/

/-- C5: when the supplied border (or holes) form an invalid polygon
(`area_of_interest.is_valid` false, e.g. a self-intersecting bow-tie), the
call aborts at once with a validation failure (lines 124-126 print a message
and return `None`): no numeric output is produced and no further computation
runs. -/
theorem c5_invalid_border_aborts (env : Env) (pts : List Pt) (bins : List ℚ)
    (fast : Bool) (h : env.isValid = false) :
    pcf2d env pts bins true fast = PcfResult.validationFailure := by
  simp [pcf2d, h]

/-- Witness for C5 at the bow-tie border. -/
theorem c5_invalid_border_aborts_witness :
    envBowtie.isValid = false ∧
      pcf2d envBowtie ptsSq binsSq true false = PcfResult.validationFailure :=
  ⟨rfl, c5_invalid_border_aborts envBowtie ptsSq binsSq false rfl⟩

/-- C10: with a border supplied and exactly one input point inside the valid
domain, the shapely intersection of line 129 is a single `Point`, which has no
`.geoms` attribute, so line 131 raises `AttributeError`: the call fails with
an exception instead of returning `(g(r), r)`. -/
theorem c10_single_interior_point_crash (env : Env) (pts : List Pt)
    (bins : List ℚ) (fast : Bool) (hv : env.isValid = true)
    (h1 : (pts.filter env.contains).length = 1) :
    pcf2d env pts bins true fast = PcfResult.pointGeomsFailure := by
  simp [pcf2d, hv, h1]

/-- Witness for C10: the square border with the single interior point
`(5,10)`. -/
theorem c10_single_interior_point_crash_witness :
    envSq.isValid = true ∧ ([((5 : ℚ), (10 : ℚ))].filter envSq.contains).length = 1 ∧
      pcf2d envSq [((5 : ℚ), (10 : ℚ))] binsSq true false = PcfResult.pointGeomsFailure :=
  ⟨rfl, rfl, c10_single_interior_point_crash envSq [((5 : ℚ), (10 : ℚ))] binsSq false rfl rfl⟩

/-- C3: in fast mode, the points surviving to the histogram stage are exactly
the in-domain points with boundary distance strictly above the largest bin
edge (line 175 keeps `dist_to_border > bins_distances[-1]`); hence every
in-domain point with distance ≤ the largest edge is discarded before
histogramming, and every surviving point has normalization factor exactly 1
for every bin (the matrix of ones of lines 167/181 is never written in fast
mode). -/
theorem c3_fast_mode_exclusion (env : Env) (pts : List Pt) (bins : List ℚ)
    (bg : Bool) (h : (pcf2d env pts bins bg true).isOk = true) :
    (pcf2d env pts bins bg true).positionsOut
        = retainedFast env (keptPoints env pts bg) bins ∧
    (∀ p ∈ keptPoints env pts bg, env.distToBorder p ≤ lastD bins →
        p ∉ (pcf2d env pts bins bg true).positionsOut) ∧
    (∀ i j, (pcf2d env pts bins bg true).normOut i j = 1) := by
  rw [pcf2d_eq_body_of_isOk h]
  refine ⟨rfl, ?_, fun i j => rfl⟩
  intro p hp hd hmem
  rw [pcf2dBody_positionsOut] at hmem
  simp only [if_pos] at hmem
  have hlt := of_decide_eq_true (List.mem_filter.mp hmem).2
  exact absurd hlt (not_lt.mpr hd)

/-- Witness for C3 at the square scenario (one point at distance 5 = largest
edge is discarded, one at distance 6 survives). -/
theorem c3_fast_mode_exclusion_witness :
    (pcf2d envSq ptsSq binsSq true true).isOk = true ∧
    ((pcf2d envSq ptsSq binsSq true true).positionsOut
        = retainedFast envSq (keptPoints envSq ptsSq true) binsSq ∧
      (∀ p ∈ keptPoints envSq ptsSq true, envSq.distToBorder p ≤ lastD binsSq →
          p ∉ (pcf2d envSq ptsSq binsSq true true).positionsOut) ∧
      (∀ i j, (pcf2d envSq ptsSq binsSq true true).normOut i j = 1)) :=
  ⟨rfl, c3_fast_mode_exclusion envSq ptsSq binsSq true rfl⟩

/-- C4: `densite` (line 140) is the in-domain point count divided by the
domain area, computed before the fast-mode exclusion, so in fast mode it
reflects all in-domain points; the final division of line 216 instead divides
each normalized-histogram entry by `nb_part * densite` with `nb_part` the
post-exclusion count (line 177). -/
theorem c4_density_prefilter (env : Env) (pts : List Pt) (bins : List ℚ)
    (bg fast : Bool) (h : (pcf2d env pts bins bg fast).isOk = true) :
    (pcf2d env pts bins bg fast).densiteOut
        = ((keptPoints env pts bg).length : ℚ) / env.area ∧
    (pcf2d env pts bins bg fast).gOut
        = (List.range (bins.length - 1)).map (fun j =>
            safeDiv
              (normHist env bins (pcf2d env pts bins bg fast).positionsOut
                (pcf2d env pts bins bg fast).normOut j)
              (((pcf2d env pts bins bg fast).positionsOut.length : ℚ)
                * (pcf2d env pts bins bg fast).densiteOut)) := by
  rw [pcf2d_eq_body_of_isOk h]
  cases fast <;> exact ⟨rfl, rfl⟩

/-- Witness for C4 at the square scenario in fast mode: the density uses both
in-domain points even though only one survives the exclusion. -/
theorem c4_density_prefilter_witness :
    (pcf2d envSq ptsSq binsSq true true).isOk = true ∧
    ((pcf2d envSq ptsSq binsSq true true).densiteOut
        = ((keptPoints envSq ptsSq true).length : ℚ) / envSq.area ∧
      (pcf2d envSq ptsSq binsSq true true).gOut
        = (List.range (binsSq.length - 1)).map (fun j =>
            safeDiv
              (normHist envSq binsSq (pcf2d envSq ptsSq binsSq true true).positionsOut
                (pcf2d envSq ptsSq binsSq true true).normOut j)
              (((pcf2d envSq ptsSq binsSq true true).positionsOut.length : ℚ)
                * (pcf2d envSq ptsSq binsSq true true).densiteOut))) :=
  ⟨rfl, c4_density_prefilter envSq ptsSq binsSq true true rfl⟩

/-- C8: when zero points are retained (all outside the domain, or all excluded
by fast mode), both final divisions (lines 215-216) have divisor zero and the
numerators are zero, so numpy produces NaN throughout: every entry of `g(r)`
(and of the raw PDF) is the non-finite marker, not a silently misleading
finite number. -/
theorem c8_zero_retained_not_finite (env : Env) (pts : List Pt)
    (bins : List ℚ) (bg fast : Bool)
    (h : (pcf2d env pts bins bg fast).positionsOut = []) :
    (∀ x ∈ (pcf2d env pts bins bg fast).gOut, x = none) ∧
    (∀ x ∈ (pcf2d env pts bins bg fast).pdfOut, x = none) := by
  rcases pcf2d_cases env pts bins bg fast with hc | hc | hc
  · rw [hc] at h ⊢
    rw [pcf2dBody_positionsOut] at h
    constructor
    · intro x hx
      rw [pcf2dBody_gOut] at hx
      rcases List.mem_map.mp hx with ⟨j, hj, rfl⟩
      rw [h]
      simp [safeDiv]
    · intro x hx
      rw [pcf2dBody_pdfOut] at hx
      rcases List.mem_map.mp hx with ⟨j, hj, rfl⟩
      rw [h]
      simp [safeDiv]
  · rw [hc]
    exact ⟨by intro x hx; simp [PcfResult.gOut] at hx,
      by intro x hx; simp [PcfResult.pdfOut] at hx⟩
  · rw [hc]
    exact ⟨by intro x hx; simp [PcfResult.gOut] at hx,
      by intro x hx; simp [PcfResult.pdfOut] at hx⟩

/-- Witness for C8: the square border with the single point `(30,30)` outside
it (zero retained points, empty intersection, no crash). -/
theorem c8_zero_retained_not_finite_witness :
    (pcf2d envOut [((30 : ℚ), (30 : ℚ))] binsSq true false).positionsOut = [] ∧
    ((∀ x ∈ (pcf2d envOut [((30 : ℚ), (30 : ℚ))] binsSq true false).gOut, x = none) ∧
      (∀ x ∈ (pcf2d envOut [((30 : ℚ), (30 : ℚ))] binsSq true false).pdfOut, x = none)) :=
  ⟨rfl, c8_zero_retained_not_finite envOut [((30 : ℚ), (30 : ℚ))] binsSq true false rfl⟩

/-- C1: in accurate mode, writing `d_i` for the boundary distance of retained
point `i`: if `d_i ≤ bins[0]`, every bin `j` gets
`normalisation[i,j] = interArea(point i, ring j) / ring_area_approx[j]`
(lines 188-190); otherwise exactly the bins `j` with `bins[j+1] > d_i` get
that translate-intersect-divide value (line 192-193) and every other bin
keeps `normalisation[i,j] = 1`. -/
theorem c1_accurate_normalization (env : Env) (pts : List Pt) (bins : List ℚ)
    (bg : Bool) (i j : ℕ) (hj : j + 1 < bins.length)
    (hi : i < ((pcf2d env pts bins bg false).positionsOut).length) :
    ((pcf2d env pts bins bg false).distOut.getD i 0 ≤ bins.getD 0 0 →
      (pcf2d env pts bins bg false).normOut i j
        = env.interArea ((pcf2d env pts bins bg false).positionsOut.getD i (0, 0)) j
            / env.ringAreaApprox j) ∧
    (¬ (pcf2d env pts bins bg false).distOut.getD i 0 ≤ bins.getD 0 0 →
      (bins.getD (j + 1) 0 > (pcf2d env pts bins bg false).distOut.getD i 0 →
        (pcf2d env pts bins bg false).normOut i j
          = env.interArea ((pcf2d env pts bins bg false).positionsOut.getD i (0, 0)) j
              / env.ringAreaApprox j) ∧
      (¬ bins.getD (j + 1) 0 > (pcf2d env pts bins bg false).distOut.getD i 0 →
        (pcf2d env pts bins bg false).normOut i j = 1)) := by
  rcases pcf2d_cases env pts bins bg false with hc | hc | hc
  · rw [hc] at hi ⊢
    rw [pcf2dBody_positionsOut] at hi ⊢
    rw [pcf2dBody_normOut, pcf2dBody_distOut]
    simp only [Bool.false_eq_true, if_false] at hi ⊢
    rw [getD_map_of_lt hi]
    set p := (keptPoints env pts bg).getD i (0, 0) with hp
    refine ⟨fun h1 => ?_, fun h1 => ⟨fun h2 => ?_, fun h2 => ?_⟩⟩
    · simp only [normEntry, ← hp, if_pos h1]
    · simp only [normEntry, ← hp, if_neg h1, if_pos (And.intro hj h2)]
    · have : ¬ (j + 1 < bins.length ∧ env.distToBorder p < bins.getD (j + 1) 0) := by
        intro hand
        exact h2 hand.2
      simp only [normEntry, ← hp, if_neg h1, if_neg this]
  · rw [hc] at hi
    simp [PcfResult.positionsOut] at hi
  · rw [hc] at hi
    simp [PcfResult.positionsOut] at hi

/-- Witness for C1 at the square scenario: point 0 has boundary distance
5 > bins[0] = 0, and bin 0 has outer edge 5 which does not exceed 5, so its
normalization entry stays 1. -/
theorem c1_accurate_normalization_witness :
    (0 + 1 < binsSq.length ∧
      0 < ((pcf2d envSq ptsSq binsSq true false).positionsOut).length) ∧
    (((pcf2d envSq ptsSq binsSq true false).distOut.getD 0 0 ≤ binsSq.getD 0 0 →
      (pcf2d envSq ptsSq binsSq true false).normOut 0 0
        = envSq.interArea ((pcf2d envSq ptsSq binsSq true false).positionsOut.getD 0 (0, 0)) 0
            / envSq.ringAreaApprox 0) ∧
    (¬ (pcf2d envSq ptsSq binsSq true false).distOut.getD 0 0 ≤ binsSq.getD 0 0 →
      (binsSq.getD (0 + 1) 0 > (pcf2d envSq ptsSq binsSq true false).distOut.getD 0 0 →
        (pcf2d envSq ptsSq binsSq true false).normOut 0 0
          = envSq.interArea ((pcf2d envSq ptsSq binsSq true false).positionsOut.getD 0 (0, 0)) 0
              / envSq.ringAreaApprox 0) ∧
      (¬ binsSq.getD (0 + 1) 0 > (pcf2d envSq ptsSq binsSq true false).distOut.getD 0 0 →
        (pcf2d envSq ptsSq binsSq true false).normOut 0 0 = 1))) :=
  ⟨⟨by decide, by decide⟩,
    c1_accurate_normalization envSq ptsSq binsSq true 0 0 (by decide) (by decide)⟩

/-- C2 counterexample, refuting both conjuncts of the claim on reachable
inputs.  Bounds: in the `envCtr` scenario (unit square, interior point
`(1/2,1/2)`, edges `[2,3]`), the boundary distance 1/2 is ≤ `bins[0]`, so
line 190 computes the entry as `0 / rings[0].area = 0`, which does not lie in
(0, 1].  The iff: in the hull scenario the interior point `(1,1)` has
boundary distance exactly 1 = `bins[1]`; line 192 corrects only bins with
`bins[j+1] > d` strictly, so the entry stays 1 although the distance does not
exceed `bins[1]`. -/
theorem c2_counterexample :
    ((pcf2d envCtr ptsCtr binsCtr true false).normOut 0 0 = 0 ∧
      ¬ (0 < (pcf2d envCtr ptsCtr binsCtr true false).normOut 0 0)) ∧
    ((pcf2d envHull ptsHull binsHull false false).normOut 0 0 = 1 ∧
      ¬ ((pcf2d envHull ptsHull binsHull false false).distOut.getD 0 0
          > binsHull.getD (0 + 1) 0)) := by
  have hz : (pcf2d envCtr ptsCtr binsCtr true false).normOut 0 0 = 0 := by
    with_unfolding_all rfl
  refine ⟨⟨hz, ?_⟩, ?_, ?_⟩
  · rw [hz]
    exact lt_irrefl 0
  · with_unfolding_all rfl
  · have h1 : (pcf2d envHull ptsHull binsHull false false).distOut.getD 0 0 = 1 := by
      with_unfolding_all rfl
    have h2 : binsHull.getD (0 + 1) 0 = 1 := by with_unfolding_all rfl
    rw [h1, h2]
    exact lt_irrefl 1

/-- C2 amended: every normalisation entry lies in the closed interval [0, 1]
(0 is attained when the ring translated to the point misses the domain
entirely, as in the counterexample); in accurate mode an entry is exactly 1
whenever the point's boundary distance is at least `bins[j+1]` (not: strictly
exceeds it), and in fast mode every entry of the returned matrix is 1.  The
hypotheses state only facts true of every real geometry: an intersection area
is nonnegative and no larger than the area of the ring polygon it intersects,
and for strictly increasing bin edges the ring polygon has positive area. -/
theorem c2_normalization_bounds_amended (env : Env) (pts : List Pt)
    (bins : List ℚ) (bg : Bool) (i j : ℕ)
    (hbins : bins.Pairwise (· < ·)) (hj : j + 1 < bins.length)
    (hgeo : ∀ p, 0 ≤ env.interArea p j ∧ env.interArea p j ≤ env.ringAreaApprox j)
    (hra : 0 < env.ringAreaApprox j) :
    (0 ≤ (pcf2d env pts bins bg false).normOut i j ∧
      (pcf2d env pts bins bg false).normOut i j ≤ 1) ∧
    (bins.getD (j + 1) 0
        ≤ env.distToBorder ((pcf2d env pts bins bg false).positionsOut.getD i (0, 0)) →
      (pcf2d env pts bins bg false).normOut i j = 1) ∧
    (pcf2d env pts bins bg true).normOut i j = 1 := by
  have hratio : ∀ p, 0 ≤ env.interArea p j / env.ringAreaApprox j ∧
      env.interArea p j / env.ringAreaApprox j ≤ 1 := by
    intro p
    obtain ⟨h1, h2⟩ := hgeo p
    exact ⟨div_nonneg h1 (le_of_lt hra), (div_le_one hra).mpr h2⟩
  have hfast : (pcf2d env pts bins bg true).normOut i j = 1 := by
    rcases pcf2d_cases env pts bins bg true with hc | hc | hc <;> rw [hc]
    · rfl
    · rfl
    · rfl
  rcases pcf2d_cases env pts bins bg false with hc | hc | hc
  · rw [hc]
    rw [pcf2dBody_normOut, pcf2dBody_positionsOut]
    simp only [Bool.false_eq_true, if_false]
    have hval : normEntry env bins (keptPoints env pts bg) i j
          = env.interArea ((keptPoints env pts bg).getD i (0, 0)) j
              / env.ringAreaApprox j
        ∨ normEntry env bins (keptPoints env pts bg) i j = 1 := by
      simp only [normEntry]
      split_ifs
      · exact Or.inl rfl
      · exact Or.inl rfl
      · exact Or.inr rfl
    refine ⟨?_, ?_, hfast⟩
    · rcases hval with hv | hv <;> rw [hv]
      · exact hratio _
      · exact ⟨zero_le_one, le_refl 1⟩
    · intro hd
      have h0j : bins.getD 0 0 < bins.getD (j + 1) 0 :=
        getD_lt_getD_of_pairwise hbins (Nat.succ_pos j) hj
      simp only [normEntry]
      split_ifs with hA hB
      · exact absurd hd (not_le.mpr (lt_of_le_of_lt hA h0j))
      · exact absurd hB.2 (not_lt.mpr hd)
      · rfl
  · rw [hc]
    exact ⟨⟨zero_le_one, le_refl 1⟩, fun _ => rfl, hfast⟩
  · rw [hc]
    exact ⟨⟨zero_le_one, le_refl 1⟩, fun _ => rfl, hfast⟩

/-- Witness for the amended C2 at the square scenario (entry (0,0): distance 5
equals the outer edge `bins[1]`, so the whenever-clause applies and the entry
is 1, inside [0,1]). -/
theorem c2_normalization_bounds_amended_witness :
    (binsSq.Pairwise (· < ·) ∧ 0 + 1 < binsSq.length ∧
      (∀ p, 0 ≤ envSq.interArea p 0 ∧ envSq.interArea p 0 ≤ envSq.ringAreaApprox 0) ∧
      0 < envSq.ringAreaApprox 0) ∧
    ((0 ≤ (pcf2d envSq ptsSq binsSq true false).normOut 0 0 ∧
      (pcf2d envSq ptsSq binsSq true false).normOut 0 0 ≤ 1) ∧
    (binsSq.getD (0 + 1) 0
        ≤ envSq.distToBorder ((pcf2d envSq ptsSq binsSq true false).positionsOut.getD 0 (0, 0)) →
      (pcf2d envSq ptsSq binsSq true false).normOut 0 0 = 1) ∧
    (pcf2d envSq ptsSq binsSq true true).normOut 0 0 = 1) :=
  ⟨⟨by decide, by decide,
      fun _ => ⟨show (0 : ℚ) ≤ 1 by decide, show (1 : ℚ) ≤ 78 by decide⟩, by decide⟩,
    c2_normalization_bounds_amended envSq ptsSq binsSq true 0 0 (by decide) (by decide)
      (fun _ => ⟨show (0 : ℚ) ≤ 1 by decide, show (1 : ℚ) ≤ 78 by decide⟩) (by decide)⟩

lemma normEntry_eq_one_of_far {env : Env} {bins : List ℚ} {pts0 : List Pt}
    {i j : ℕ} (hbins : bins.Pairwise (· < ·)) (hj : j < bins.length - 1)
    (hfar : lastD bins < env.distToBorder (pts0.getD i (0, 0))) :
    normEntry env bins pts0 i j = 1 := by
  have hlast : bins.getD (j + 1) 0 ≤ lastD bins := by
    unfold lastD
    exact getD_le_getD_of_pairwise hbins (by omega) (by omega)
  have h0 : bins.getD 0 0 ≤ lastD bins := by
    unfold lastD
    exact getD_le_getD_of_pairwise hbins (by omega) (by omega)
  simp only [normEntry]
  split_ifs with hA hB
  · exact absurd hfar (not_lt.mpr (le_trans hA h0))
  · exact absurd hfar (not_lt.mpr (le_of_lt (lt_of_lt_of_le hB.2 hlast)))
  · rfl

lemma body_modes_eq (env : Env) (pts0 : List Pt) (bins : List ℚ)
    (hbins : bins.Pairwise (· < ·))
    (hfar : ∀ p ∈ pts0, lastD bins < env.distToBorder p) :
    (pcf2dBody env pts0 bins true).gOut = (pcf2dBody env pts0 bins false).gOut ∧
    (pcf2dBody env pts0 bins true).radiiOut
      = (pcf2dBody env pts0 bins false).radiiOut := by
  have hfilter : retainedFast env pts0 bins = pts0 := by
    apply List.filter_eq_self.mpr
    intro a ha
    exact decide_eq_true (hfar a ha)
  constructor
  · rw [pcf2dBody_gOut, pcf2dBody_gOut]
    simp only [Bool.false_eq_true, if_false, if_pos]
    rw [hfilter]
    apply List.map_congr_left
    intro j hj
    have hjlt : j < bins.length - 1 := List.mem_range.mp hj
    congr 1
    unfold normHist
    apply congrArg List.sum
    apply List.map_congr_left
    intro i hi
    have hi' : i < pts0.length := List.mem_range.mp hi
    rw [normEntry_eq_one_of_far hbins hjlt
      (hfar _ (getD_mem_of_lt hi'))]
  · rfl

/-- C6 counterexample: with one in-domain point at boundary distance exactly
equal to the largest bin edge (5), no retained point is closer to the boundary
than that edge, yet the fast method discards the point (strict `>` at line
175) while the accurate method keeps it, and the two modes return different
g(r): `8/pi` versus `0`. -/
theorem c6_counterexample :
    (∀ p ∈ keptPoints envSq ptsSq true,
        ¬ (envSq.distToBorder p < lastD binsSq)) ∧
    (pcf2d envSq ptsSq binsSq true true).gOut
      ≠ (pcf2d envSq ptsSq binsSq true false).gOut := by
  refine ⟨by decide, fun h => ?_⟩
  have h0 : (((pcf2d envSq ptsSq binsSq true true).gOut.getD 0 none).getD 0).num
      = 0 := by with_unfolding_all rfl
  rw [h] at h0
  have h1 : (((pcf2d envSq ptsSq binsSq true false).gOut.getD 0 none).getD 0).num
      = 2251799813685248 := by with_unfolding_all rfl
  rw [h0] at h1
  exact absurd h1 (by decide)

/-- C6 amended: when every in-domain point has boundary distance strictly
greater than the largest bin edge (so that the fast method's strict exclusion
`dist > bins[-1]` keeps every point), fast and accurate mode return identical
`(g(r), r)` outputs. -/
theorem c6_mode_equivalence_amended (env : Env) (pts : List Pt)
    (bins : List ℚ) (bg : Bool) (hbins : bins.Pairwise (· < ·))
    (hfar : ∀ p ∈ keptPoints env pts bg, lastD bins < env.distToBorder p) :
    (pcf2d env pts bins bg true).gOut = (pcf2d env pts bins bg false).gOut ∧
    (pcf2d env pts bins bg true).radiiOut
      = (pcf2d env pts bins bg false).radiiOut := by
  cases bg with
  | false => exact body_modes_eq env pts bins hbins hfar
  | true =>
    by_cases hv : env.isValid
    · by_cases h1 : (pts.filter env.contains).length = 1
      · have hb : ∀ fast, pcf2d env pts bins true fast
            = PcfResult.pointGeomsFailure := by
          intro fast
          simp [pcf2d, hv, h1]
        rw [hb true, hb false]
        exact ⟨rfl, rfl⟩
      · have hb : ∀ fast, pcf2d env pts bins true fast
            = pcf2dBody env (pts.filter env.contains) bins fast := by
          intro fast
          simp [pcf2d, hv, h1]
        rw [hb true, hb false]
        exact body_modes_eq env (pts.filter env.contains) bins hbins hfar
    · have hb : ∀ fast, pcf2d env pts bins true fast
          = PcfResult.validationFailure := by
        intro fast
        simp [pcf2d, hv]
      rw [hb true, hb false]
      exact ⟨rfl, rfl⟩

/-- Witness for the amended C6: square scenario with edges `[0,4]`, both
points farther than 4 from the boundary. -/
theorem c6_mode_equivalence_amended_witness :
    (binsSq4.Pairwise (· < ·) ∧
      (∀ p ∈ keptPoints envSq ptsSq true, lastD binsSq4 < envSq.distToBorder p)) ∧
    ((pcf2d envSq ptsSq binsSq4 true true).gOut
        = (pcf2d envSq ptsSq binsSq4 true false).gOut ∧
      (pcf2d envSq ptsSq binsSq4 true true).radiiOut
        = (pcf2d envSq ptsSq binsSq4 true false).radiiOut) :=
  ⟨⟨by decide, by decide⟩,
    c6_mode_equivalence_amended envSq ptsSq binsSq4 true (by decide) (by decide)⟩

lemma eraseIdx_set_self {α : Type} :
    ∀ (l : List α) (i : ℕ) (a : α), (l.set i a).eraseIdx i = l.eraseIdx i := by
  intro l
  induction l with
  | nil => intro i a; rfl
  | cons x xs ih =>
    intro i a
    cases i with
    | zero => rfl
    | succ n => simp [ih]

/-- C7: the self-distance of every retained point is overwritten with the
`np.inf` sentinel (line 206) before binning, and the sentinel falls in no
histogram bin for any bin-edge array, so the pair `(i,i)` contributes to no
bin count — hence to neither the raw histogram of line 208 nor the
normalized histogram of line 209, both of which are functions of these
counts. -/
theorem c7_self_distance_sentinel (env : Env) (pts : List Pt) (bins : List ℚ)
    (i j : ℕ) (hi : i < pts.length) :
    (distToLoc env pts i).getD i 0 = ⊤ ∧
    inBin bins j ⊤ = false ∧
    binCount bins j (distToLoc env pts i)
      = binCount bins j ((distToLoc env pts i).eraseIdx i) := by
  refine ⟨?_, inBin_top bins j, ?_⟩
  · unfold distToLoc
    exact getD_set_self (by simpa using hi) ⊤
  · unfold binCount distToLoc
    rw [eraseIdx_set_self]
    exact length_filter_set_eraseIdx _ _ (inBin_top bins j) _ i (by simpa using hi)

/-- Witness for C7 at the square scenario. -/
theorem c7_self_distance_sentinel_witness :
    0 < ptsSq.length ∧
    ((distToLoc envSq ptsSq 0).getD 0 0 = ⊤ ∧
      inBin binsSq 0 ⊤ = false ∧
      binCount binsSq 0 (distToLoc envSq ptsSq 0)
        = binCount binsSq 0 ((distToLoc envSq ptsSq 0).eraseIdx 0)) :=
  ⟨by decide, c7_self_distance_sentinel envSq ptsSq binsSq 0 0 (by decide)⟩

/-- C9: the code never validates `bins_distances`.  A too-short edge sequence
(single edge `[1.0]`, defining no bin) flows through the whole pipeline —
border polygon construction, point filtering, boundary distances — and the
call returns a normal numeric result with empty `g(r)` and `r` arrays instead
of being rejected before geometry work.  (With decreasing edges such as
`[2.0, 1.0]` the run instead dies mid-loop in `np.histogram`, equally after
the geometry work.)  This theorem evaluates the model at the unit-square
scenario with `bins_distances = [1.0]`. -/
theorem c9_short_bins_not_rejected :
    (pcf2d envUnit ptsUnit binsOne true false).isOk = true ∧
    (pcf2d envUnit ptsUnit binsOne true false).gOut = [] ∧
    (pcf2d envUnit ptsUnit binsOne true false).radiiOut = [] :=
  ⟨rfl, rfl, rfl⟩

end PairCorrelation2D
